import Mathlib

/-!
Verification of the disambiguation core of tnajdek/citeproc-rs.

Shallow embedding of:
  * src/crates/citeproc-proc/src/disamb/names.rs — the single-name disambiguation
    iterator, the reference variant matcher, global name disambiguation, and the
    NFA-building loop of `Names::ref_ir`;
  * src/crates/proc/src/ir.rs — the IR tree (`IR::is_empty`, `IrSeq::overall_group_vars`,
    `IR::flatten` / `IrSeq::flatten_seq`);
  * src/crates/proc/src/ir/transforms.rs — `RangePiece::attempt_append` and
    `collapse_ranges`.

Types owned by collaborating crates that are not under src (csl, citeproc_io, the
Markup output format, the salsa database) are modelled from the specification; each
such definition carries a doc comment starting with "Modelled from the spec".
-/

/-- Modelled from the spec: `Atom` (interned string of the csl crate, not under src)
is modelled as a plain string. -/
abbrev Atom := String

/-- Modelled from the spec: an `Edge` is an opaque 32-bit identifier produced by the
edge interner (§3 of the spec); the interner itself is not under src. Two edges are
equal iff their payloads are equal, so any rendering function into these identifiers
represents `single_name_edge` composed with the (deterministic) interner. -/
abbrev Edge := Nat

/-- Modelled from the spec: a name variable (author, editor, …) of the csl crate,
modelled as an opaque identifier. -/
abbrev NameVariable := Nat

/-- Modelled from the spec: `csl::style::NameForm` — the form attribute of a name
element (long | short | count). -/
inductive NameForm
  | Long
  | Short
  | Count
  deriving DecidableEq, Fintype

/-- Modelled from the spec (§6): the recognized givenname-disambiguation-rule values. -/
inductive GivenNameDisambiguationRule
  | ByCite
  | AllNames
  | AllNamesWithInitials
  | PrimaryName
  | PrimaryNameWithInitials
  deriving DecidableEq

/-- Modelled from the spec (§3): a structured person-name value (citeproc_io crate,
not under src). The fields are opaque to every embedded operation. -/
structure PersonName where
  family : Option String := none
  given : Option String := none
  dropping_particle : Option String := none
  non_dropping_particle : Option String := none
  suffix : Option String := none
  literal : Option String := none
  deriving DecidableEq

/-- Modelled from the spec (§3): the name element configuration (csl crate, not under
src), restricted to the three axes the embedded operations read: the form, whether to
initialize given names (source field `initialize`, renamed here), and the
initialize-with delimiter. -/
structure NameEl where
  form : Option NameForm := none
  initialize_given : Option Bool := none
  initialize_with : Option Atom := none
  deriving DecidableEq

/-- `DisambNameData` (disamb/names.rs): the mutable working copy of an interned
DisambName. -/
structure DisambNameData where
  ref_id : Atom := ""
  var : NameVariable := 0
  el : NameEl := {}
  value : PersonName := {}
  primary : Bool := false
  deriving DecidableEq

/-- `NameDisambPass` (disamb/names.rs). -/
inductive NameDisambPass
  | WithFormLong
  | WithInitializeFalse
  deriving DecidableEq, Fintype

/-- `SingleNameDisambMethod` (disamb/names.rs). -/
inductive SingleNameDisambMethod
  | None
  | AddInitials
  | AddInitialsThenGivenName
  deriving DecidableEq, Fintype

/-- `NameDisambState` (disamb/names.rs). -/
inductive NameDisambState
  | Original
  | AddedInitials
  | AddedGivenName
  deriving DecidableEq, Fintype

/-- `SingleNameDisambIter` (disamb/names.rs): the iterator's fields. The
`initialize_with` flag is the precomputed boolean of the constructor. -/
structure SingleNameDisambIter where
  method : SingleNameDisambMethod
  initialize_with : Bool
  name_form : NameForm
  state : NameDisambState
  deriving DecidableEq, Fintype

/-- `SingleNameDisambMethod::from_rule` (disamb/names.rs). -/
def SingleNameDisambMethod.from_rule (rule : GivenNameDisambiguationRule)
    (is_primary : Bool) : SingleNameDisambMethod :=
  match rule, is_primary with
  | .ByCite, _ => .AddInitialsThenGivenName
  | .AllNames, _ => .AddInitialsThenGivenName
  | .AllNamesWithInitials, _ => .AddInitials
  | .PrimaryName, true => .AddInitialsThenGivenName
  | .PrimaryNameWithInitials, true => .AddInitials
  | _, _ => .None

/-- `SingleNameDisambIter::new` (disamb/names.rs). The source computes
`initialize_with: name_el.initialize_with.is_some() && name_el.initialize == Some(true)`
and `name_form: name_el.form.unwrap_or(NameForm::Long)`. -/
def SingleNameDisambIter.new (method : SingleNameDisambMethod) (name_el : NameEl) :
    SingleNameDisambIter :=
  { method := method
    initialize_with := name_el.initialize_with.isSome && (name_el.initialize_given == some true)
    name_form := name_el.form.getD NameForm.Long
    state := NameDisambState.Original }

/-- `<SingleNameDisambIter as Iterator>::next` (disamb/names.rs), written as a pure
state transformer: it returns the yielded item together with the successor iterator
state. The two `unreachable!()` arms of the source are modelled as "stop", per the
release-build policy of §7 of the spec. -/
def SingleNameDisambIter.next (it : SingleNameDisambIter) :
    Option NameDisambPass × SingleNameDisambIter :=
  match it.method with
  | .None => (none, it)
  | .AddInitials =>
    if it.initialize_with then
      match it.state with
      | .Original =>
        if it.name_form == .Short then
          (some .WithFormLong, { it with state := .AddedInitials })
        else
          (none, it)
      | .AddedInitials => (none, it)
      | .AddedGivenName => (none, it)
    else
      (none, it)
  | .AddInitialsThenGivenName =>
    if it.initialize_with then
      match it.state, it.name_form with
      | .Original, .Short => (some .WithFormLong, { it with state := .AddedInitials })
      | .Original, _ => (some .WithInitializeFalse, { it with state := .AddedGivenName })
      | .AddedInitials, _ => (some .WithInitializeFalse, { it with state := .AddedGivenName })
      | .AddedGivenName, _ => (none, it)
    else
      match it.state with
      | .Original =>
        if it.name_form == .Short then
          (some .WithFormLong, { it with state := .AddedGivenName })
        else
          (none, { it with state := .AddedGivenName })
      | .AddedInitials => (none, it)
      | .AddedGivenName => (none, it)

/-- Rank of an iterator state: `next` only ever moves to states of strictly smaller
rank when it yields an item. -/
def NameDisambState.rank : NameDisambState → Nat
  | .Original => 2
  | .AddedInitials => 1
  | .AddedGivenName => 0

/-- The list of passes an iterator yields when polled repeatedly, with explicit fuel.
Any fuel at least `it.state.rank + 1` is enough (the stream always ends in `none`
within that many polls), so the fuel only makes the recursion structural. -/
def SingleNameDisambIter.yieldsFuel : Nat → SingleNameDisambIter → List NameDisambPass
  | 0, _ => []
  | fuel + 1, it =>
    match it.next with
    | (some p, it') => p :: SingleNameDisambIter.yieldsFuel fuel it'
    | (none, _) => []

/-- The full pass sequence an iterator yields (fuel 3 covers every state: the rank is
at most 2). -/
def SingleNameDisambIter.yields (it : SingleNameDisambIter) : List NameDisambPass :=
  SingleNameDisambIter.yieldsFuel 3 it

/-- The sequence of internal states visited across calls to `next` (the initial state
followed by the state after each yielding call), with explicit fuel. -/
def SingleNameDisambIter.stateTraceFuel : Nat → SingleNameDisambIter → List NameDisambState
  | 0, it => [it.state]
  | fuel + 1, it =>
    it.state ::
      (match it.next with
        | (some _, it') => SingleNameDisambIter.stateTraceFuel fuel it'
        | (none, _) => [])

/-- `DisambNameData::apply_pass` (disamb/names.rs). -/
def DisambNameData.apply_pass (dn : DisambNameData) (pass : NameDisambPass) : DisambNameData :=
  match pass with
  | .WithFormLong => { dn with el := { dn.el with form := some NameForm.Long } }
  | .WithInitializeFalse => { dn with el := { dn.el with initialize_given := some false } }

/-- `DisambNameData::disamb_iter` (disamb/names.rs). -/
def DisambNameData.disamb_iter (dn : DisambNameData) (rule : GivenNameDisambiguationRule) :
    SingleNameDisambIter :=
  SingleNameDisambIter.new (SingleNameDisambMethod.from_rule rule dn.primary) dn.el

/-- `NameVariantMatcher` (disamb/names.rs): the small set of edges a reference could
produce for one name under all allowed expansions. -/
structure NameVariantMatcher where
  edges : List Edge

/-- `NameVariantMatcher::accepts` (disamb/names.rs): linear membership. -/
def NameVariantMatcher.accepts (m : NameVariantMatcher) (edge : Edge) : Bool :=
  m.edges.contains edge

/-- The expansion tail of `NameVariantMatcher::from_disamb_name`: starting from data
`d`, apply each pass in order and record the re-rendered edge after each one.
`render` stands for `DisambNameData::single_name_edge(db, Formatting::default())`,
whose body (OneNameVar rendering plus interning) is not under src; per §4.4 of the
spec it is a pure function of the data, which is exactly how it is passed here. -/
def matcher_expansions (render : DisambNameData → Edge) :
    DisambNameData → List NameDisambPass → List Edge
  | _, [] => []
  | d, p :: ps =>
    let d' := d.apply_pass p
    render d' :: matcher_expansions render d' ps

/-- `NameVariantMatcher::from_disamb_name` (disamb/names.rs): push the un-expanded
edge, then one edge per pass of the iterator, mutating the data as it goes. -/
def NameVariantMatcher.from_disamb_name (render : DisambNameData → Edge)
    (rule : GivenNameDisambiguationRule) (data : DisambNameData) : NameVariantMatcher :=
  ⟨render data :: matcher_expansions render data ((data.disamb_iter rule).yields)⟩

/-- The counting loop of the `is_ambiguous` closure in `disambiguated_person_names`
(disamb/names.rs): count accepting matchers, breaking as soon as the count exceeds 1. -/
def ambiguous_count (edge : Edge) : List NameVariantMatcher → Nat → Nat
  | [], n => n
  | m :: ms, n =>
    let n' := if m.accepts edge then n + 1 else n
    if n' > 1 then n' else ambiguous_count edge ms n'

/-- The `is_ambiguous` closure of `disambiguated_person_names` (disamb/names.rs):
more than one matcher accepts the edge. -/
def is_ambiguous (matchers : List NameVariantMatcher) (edge : Edge) : Bool :=
  decide (1 < ambiguous_count edge matchers 0)

/-- The per-name `while is_ambiguous(edge)` loop of `disambiguated_person_names`
(disamb/names.rs): while the current edge is ambiguous, request the next pass; if one
exists apply it and re-render, otherwise reset to the looked-up original `d0` and
stop. Fuel makes the recursion structural; fuel `it.state.rank + 1` always suffices
since every yielding call strictly decreases the rank. -/
def gnd_loop (amb : Edge → Bool) (render : DisambNameData → Edge) (d0 : DisambNameData) :
    Nat → SingleNameDisambIter → DisambNameData → DisambNameData
  | 0, _, d => d
  | fuel + 1, it, d =>
    if amb (render d) then
      match it.next with
      | (some pass, it') => gnd_loop amb render d0 fuel it' (d.apply_pass pass)
      | (none, _) => d0
    else
      d

/-- The value `disambiguated_person_names` records for one name: run the while loop
from the looked-up data with a fresh iterator. Fuel 3 exceeds every state rank. -/
def gnd_result (amb : Edge → Bool) (render : DisambNameData → Edge)
    (rule : GivenNameDisambiguationRule) (d0 : DisambNameData) : DisambNameData :=
  gnd_loop amb render d0 3 (d0.disamb_iter rule) d0

/-- The matcher preamble of `disambiguated_person_names` (disamb/names.rs): one
variant matcher per DisambName id, in id-list order. -/
def global_matchers (dns : List Nat) (lookup : Nat → DisambNameData)
    (render : DisambNameData → Edge) (rule : GivenNameDisambiguationRule) :
    List NameVariantMatcher :=
  dns.map (fun dn => NameVariantMatcher.from_disamb_name render rule (lookup dn))

/-- `disambiguated_person_names` (disamb/names.rs). `dns` is `db.all_person_names()`,
`lookup` is `DisambName::lookup`, `render` is `single_name_edge` under default
formatting, `rule` and `dagn` come from the style. The returned map is modelled as a
function from ids to optional data, built by the same insertion loop as the source
(later insertions shadow earlier ones, as in the source's HashMap). -/
def disambiguated_person_names (dns : List Nat) (lookup : Nat → DisambNameData)
    (render : DisambNameData → Edge) (rule : GivenNameDisambiguationRule)
    (dagn : Bool) : Nat → Option DisambNameData :=
  if dagn = false ∨ rule = GivenNameDisambiguationRule.ByCite then
    fun _ => none
  else
    let amb := is_ambiguous (global_matchers dns lookup render rule)
    dns.foldl
      (fun results dn_id x =>
        if x = dn_id then some (gnd_result amb render rule (lookup dn_id)) else results x)
      (fun _ => none)

/-! ## The NFA-building loop of `Names::ref_ir` (disamb/names.rs, lines 63–126)

The loop `while counted_tokens > max_counted_tokens { … }` mutates three variables
that govern its guard: `max_counted_tokens`, `counted_tokens` and
`runner.bump_name_count`.  `graph_with_stack`, `names_to_builds` and `ntb_len` live
in crates that are not under src, so they enter the model as parameters:
`ntb_len_at b` is the token count of the builds produced at bump count `b`
(`ntb_len(&runner.names_to_builds(..))` after `b` bumps), and `run_adds_edges b`
says whether the run built from those builds appends at least one edge, i.e. whether
`graph_with_stack` returns a frontier different from `start` (spec §4.2: the frontier
moves exactly when something was appended, so it is a function of the builds alone,
hence of the bump count).  When `one_run == start` the source executes `continue`,
which skips `nfa.accepting.insert`, the bump, and both counter updates — that is the
`else` branch below, which leaves the state unchanged. -/

/-- The loop variables of the NFA-building loop in `Names::ref_ir`. -/
structure RefIrLoopState where
  max_counted_tokens : Nat
  counted_tokens : Nat
  bump_name_count : Nat
  deriving DecidableEq

/-- One iteration of the loop body of `Names::ref_ir`'s NFA-building loop. -/
def ref_ir_nfa_step (ntb_len_at : Nat → Nat) (run_adds_edges : Nat → Bool)
    (s : RefIrLoopState) : RefIrLoopState :=
  if run_adds_edges s.bump_name_count = true then
    { max_counted_tokens := s.counted_tokens
      counted_tokens := ntb_len_at (s.bump_name_count + 1)
      bump_name_count := s.bump_name_count + 1 }
  else
    s

/-- The loop guard `counted_tokens > max_counted_tokens`. -/
def ref_ir_nfa_guard (s : RefIrLoopState) : Prop :=
  s.max_counted_tokens < s.counted_tokens

/-- The state on entry to the loop: `max_counted_tokens = 0`,
`counted_tokens = ntb_len(&ntbs)` with zero bumps. -/
def ref_ir_initial (ntb_len_at : Nat → Nat) : RefIrLoopState :=
  { max_counted_tokens := 0, counted_tokens := ntb_len_at 0, bump_name_count := 0 }

/-! ## `collapse_ranges` (ir/transforms.rs) -/

/-- `CnumIx` (ir/transforms.rs): a citation number (u32 in the source, kept as a `Nat`
with wrapping made explicit where the source subtracts) together with its index. -/
structure CnumIx where
  cnum : Nat
  ix : Nat
  deriving DecidableEq, Repr

/-- `RangePiece` (ir/transforms.rs). -/
inductive RangePiece
  | Range (a b : CnumIx)
  | Single (a : CnumIx)
  deriving DecidableEq, Repr

/-- The u32 subtraction `x - 1` of the source, with two's-complement wrapping made
explicit: `(x + 2^32 - 1) % 2^32`. In release builds this is what `nxt.cnum - 1`
computes; in debug builds `x = 0` panics instead (see `checked_sub_one` below). -/
def u32_sub_one (x : Nat) : Nat :=
  (x + 4294967295) % 4294967296

/-- `RangePiece::attempt_append` (ir/transforms.rs), written as a pure function: the
source mutates `self` and returns the evicted piece; here the first component is the
new `self` and the second the returned `Option<RangePiece>`. Both match guards
evaluate `nxt.cnum - 1`. -/
def RangePiece.attempt_append : RangePiece → CnumIx → RangePiece × Option RangePiece
  | RangePiece.Single prv, nxt =>
    if prv.cnum = u32_sub_one nxt.cnum then (RangePiece.Range prv nxt, none)
    else (RangePiece.Single nxt, some (RangePiece.Single prv))
  | RangePiece.Range s e, nxt =>
    if e.cnum = u32_sub_one nxt.cnum then (RangePiece.Range s nxt, none)
    else (RangePiece.Single nxt, some (RangePiece.Range s e))

/-- The loop body of `collapse_ranges` (ir/transforms.rs): thread the work-in-progress
piece and push any evicted piece. -/
def collapse_step (acc : RangePiece × List RangePiece) (num : CnumIx) :
    RangePiece × List RangePiece :=
  let r := acc.1.attempt_append num
  (r.1, acc.2 ++ r.2.toList)

/-- `collapse_ranges` (ir/transforms.rs). -/
def collapse_ranges : List CnumIx → List RangePiece
  | [] => []
  | init :: rest =>
    let st := rest.foldl collapse_step (RangePiece.Single init, [])
    st.2 ++ [st.1]

/-- The piece a maximal run from `lo` to `hi` becomes under the spec's range
compression rule (§8 property 6 and §4.9): a run of one element is a `Single`, a
longer run a `Range`. -/
def runPiece (lo hi : CnumIx) : RangePiece :=
  if lo = hi then RangePiece.Single lo else RangePiece.Range lo hi

/-- Reference formulation of the spec's range-compression rule, tracking the current
maximal run `[lo..hi]`: a successor extends the run, anything else closes it. -/
def rangeCompressGo (lo hi : CnumIx) : List CnumIx → List RangePiece
  | [] => [runPiece lo hi]
  | y :: ys =>
    if y.cnum = hi.cnum + 1 then rangeCompressGo lo y ys
    else runPiece lo hi :: rangeCompressGo y y ys

/-- Reference formulation of the spec's range-compression rule (runs of consecutive
cnums become ranges; non-consecutive values break the run; empty input maps to the
empty output). -/
def rangeCompressSpec : List CnumIx → List RangePiece
  | [] => []
  | x :: xs => rangeCompressGo x x xs

/-- The u32 subtraction `x - 1` as executed by a debug build: underflow is a panic,
modelled as `none`. -/
def checked_sub_one (x : Nat) : Option Nat :=
  if x = 0 then none else some (x - 1)

/-- `RangePiece::attempt_append` with the debug-build (checked) subtraction: `none`
exactly when the source would reach `0 - 1` on u32. Both match guards evaluate the
subtraction, as in the source. -/
def attempt_append_checked (wip : RangePiece) (nxt : CnumIx) :
    Option (RangePiece × Option RangePiece) :=
  match wip with
  | RangePiece.Single prv =>
    (checked_sub_one nxt.cnum).map fun m =>
      if prv.cnum = m then (RangePiece.Range prv nxt, none)
      else (RangePiece.Single nxt, some (RangePiece.Single prv))
  | RangePiece.Range s e =>
    (checked_sub_one nxt.cnum).map fun m =>
      if e.cnum = m then (RangePiece.Range s nxt, none)
      else (RangePiece.Single nxt, some (RangePiece.Range s e))

/-- The loop body of `collapse_ranges` with the checked subtraction. -/
def collapse_step_checked (acc : RangePiece × List RangePiece) (num : CnumIx) :
    Option (RangePiece × List RangePiece) :=
  (attempt_append_checked acc.1 num).map fun r => (r.1, acc.2 ++ r.2.toList)

/-- `collapse_ranges` with the checked subtraction: `none` exactly when some call to
`attempt_append` underflows. -/
def collapse_ranges_checked : List CnumIx → Option (List RangePiece)
  | [] => some []
  | init :: rest =>
    (rest.foldlM collapse_step_checked (RangePiece.Single init, [])).map fun st =>
      st.2 ++ [st.1]

/-! ## The IR tree (ir.rs)

The source stores IR nodes in an indextree arena of `(IR, GroupVars)` pairs and
walks `node.children(arena)`. The embedding replaces the arena by the tree itself:
a node is its payload, its stored group-vars, and its list of children. -/

/-- Modelled from the spec (§3): the tri-state group variables of the csl crate
(not under src), with the values the spec lists. -/
inductive GroupVars
  | Plain
  | Important
  | Missing
  | Unresolved
  | OnlyEmpty
  deriving DecidableEq

/-- Modelled from the spec (§3): the sibling composition operator `neighbour` of the
csl crate (not under src). The spec gives no table, only that the fold across
siblings decides rendering and that `Missing` means a referenced variable was absent;
the table below lets a rendered variable dominate, then a missing one, then an
unresolved condition, with `OnlyEmpty` neutral. Every theorem below that involves a
fold fixes the fold's value by hypothesis, so only the operator's type is load-bearing. -/
def GroupVars.neighbour : GroupVars → GroupVars → GroupVars
  | GroupVars.Important, _ => GroupVars.Important
  | _, GroupVars.Important => GroupVars.Important
  | GroupVars.Missing, _ => GroupVars.Missing
  | _, GroupVars.Missing => GroupVars.Missing
  | GroupVars.Unresolved, _ => GroupVars.Unresolved
  | _, GroupVars.Unresolved => GroupVars.Unresolved
  | _, _ => GroupVars.Plain

/-- Modelled from the spec: `GroupVars::should_render_tree` (csl crate, not under
src). In src it is applied only to results of `IrSeq::overall_group_vars`, which
replicates `implicit_conditional` and therefore only produces `Important` (fold was
non-`Missing`) or `Plain` (fold was `Missing`). §4.7 of the spec: a Seq whose fold is
non-`Missing` is treated as `Important`, and "a tree with overall `Missing` renders
to nothing"; so on these values rendering coincides with being `Important`. -/
def GroupVars.should_render_tree : GroupVars → Bool
  | GroupVars.Important => true
  | _ => false

/-- Modelled from the spec: display modes (csl crate, not under src). -/
inductive DisplayMode
  | Block
  | LeftMargin
  | RightInline
  | Indent
  deriving DecidableEq

/-- Modelled from the spec: an opaque formatting context (csl crate, not under src);
its payload is irrelevant to every embedded operation, which only pass it along. -/
structure Formatting where
  font_code : Nat := 0
  deriving DecidableEq

/-- Modelled from the spec: affixes (csl crate, not under src). The source fields
are `prefix` and `suffix`. -/
structure Affixes where
  pre : String := ""
  suf : String := ""
  deriving DecidableEq

/-- Modelled from the spec: localized quotes (citeproc_io crate, not under src). -/
structure LocalizedQuotes where
  open_quote : String := ""
  close_quote : String := ""
  deriving DecidableEq

/-- Modelled from the spec: text-case transforms (csl crate, not under src). -/
inductive TextCase
  | Unset
  | Lowercase
  | Uppercase
  | CapitalizeFirst
  | CapitalizeAll
  | Sentence
  | Title
  deriving DecidableEq

/-- `IrSeq` (ir.rs): the payload of a `Seq` node (children live in the arena). -/
structure IrSeq where
  formatting : Option Formatting := none
  affixes : Option Affixes := none
  delimiter : String := ""
  display : Option DisplayMode := none
  quotes : Option LocalizedQuotes := none
  text_case : TextCase := TextCase.Unset
  dropped_gv : Option GroupVars := none
  deriving DecidableEq

/-- `YearSuffixHook` (ir.rs). The `TextElement` carried by `Explicit` belongs to the
csl crate (not under src) and is modelled as an opaque identifier. -/
inductive YearSuffixHook
  | Explicit (text_element : Nat)
  | Plain
  deriving DecidableEq

/-- `CiteEdgeData` (ir.rs) over the Markup output format, whose `Build` type (not
under src) is modelled as the rendered string. -/
inductive CiteEdgeData
  | Output (b : String)
  | Locator (b : String)
  | LocatorLabel (b : String)
  | YearSuffix (b : String)
  | CitationNumber (b : String)
  | CitationNumberLabel (b : String)
  | Frnn (b : String)
  | FrnnLabel (b : String)
  | Accessed (b : String)
  | Year (b : String)
  | Term (b : String)
  deriving DecidableEq

/-- `CiteEdgeData::inner` (ir.rs). -/
def CiteEdgeData.inner : CiteEdgeData → String
  | CiteEdgeData.Output b | CiteEdgeData.Locator b | CiteEdgeData.LocatorLabel b
  | CiteEdgeData.YearSuffix b | CiteEdgeData.CitationNumber b
  | CiteEdgeData.CitationNumberLabel b | CiteEdgeData.Frnn b | CiteEdgeData.FrnnLabel b
  | CiteEdgeData.Accessed b | CiteEdgeData.Year b | CiteEdgeData.Term b => b

/-- The tag-and-payload part of an `IR` node (ir.rs). The working state carried by
`Name` and `NameCounter` nodes (NameIR, IrNameCounter) is not read by any embedded
operation, which only dispatch on the tag, so it is not reproduced here; the
`Arc<Choose>` of `ConditionalDisamb` likewise belongs to the csl crate. -/
inductive IrPayload
  | rendered (data : Option CiteEdgeData)
  | name
  | conditionalDisamb (group_vars : GroupVars) (done : Bool)
  | yearSuffix (hook : YearSuffixHook) (group_vars : GroupVars) (suffix_num : Option Nat)
  | seq (s : IrSeq)
  | nameCounter (group_vars : GroupVars)

/-- An IR node of the arena: payload, the stored `GroupVars` of the `IrSum` pair,
and the node's children. -/
inductive IrTree
  | node (payload : IrPayload) (group_vars : GroupVars) (children : List IrTree)

/-- The stored group-vars of a node (the second component of the arena's `IrSum`). -/
def IrTree.gv : IrTree → GroupVars
  | IrTree.node _ g _ => g

/-- `IR::is_empty` (ir.rs, lines 200–213), verbatim: `Rendered(None)` is empty; for
`Seq`, `Name`, `ConditionalDisamb` and `YearSuffix` the source returns
`node.children(arena).next().is_some()`; `NameCounter` and everything else return
`false`. -/
def IR.is_empty : IrTree → Bool
  | IrTree.node p _ children =>
    match p with
    | IrPayload.rendered none => true
    | IrPayload.seq _ => !children.isEmpty
    | IrPayload.name => !children.isEmpty
    | IrPayload.conditionalDisamb _ _ => !children.isEmpty
    | IrPayload.yearSuffix _ _ _ => !children.isEmpty
    | IrPayload.nameCounter _ => false
    | IrPayload.rendered (some _) => false

/-- `IrSeq::overall_group_vars` (ir.rs, lines 426–443): fold the children's stored
group-vars into `dropped_gv` with `neighbour`, then replicate
`GroupVars::implicit_conditional`: `Important` if the fold is not `Missing`, else
`Plain`. -/
def IrSeq.overall_group_vars (dropped_gv : Option GroupVars) (children : List IrTree) :
    Option GroupVars :=
  dropped_gv.map fun dropped =>
    let acc := children.foldl (fun acc c => acc.neighbour c.gv) dropped
    if acc ≠ GroupVars.Missing then GroupVars.Important else GroupVars.Plain

/-- Modelled from the spec (§6): the output formatter's operations used by
`IrSeq::flatten_seq` and `IR::flatten_children` (the Markup formatter is not under
src). `group` joins builds with a delimiter under a formatting; `affixed_quoted`,
`with_display` and `apply_text_case` post-process the joined build. -/
structure MarkupFmt where
  group : List String → String → Option Formatting → String
  affixed_quoted : String → Option Affixes → Option LocalizedQuotes → String
  with_display : String → Option DisplayMode → Bool → String
  apply_text_case : String → TextCase → String

/-- `IR::flatten_children` (ir.rs) after the children have been flattened: `None` on
an empty group, otherwise `fmt.group(group, "", None)`. -/
def group_children_fmt (fmt : MarkupFmt) (built : List String) : Option String :=
  if built.isEmpty then none else some (fmt.group built "" none)

/-- The tail of `IrSeq::flatten_seq` (ir.rs) after the group-vars check: `None` if no
child flattened, else delimiter-join, affixes and quotes, display, text-case, in that
order. -/
def seq_finish (fmt : MarkupFmt) (s : IrSeq) (xs : List String) : Option String :=
  if xs.isEmpty then none
  else
    some (fmt.apply_text_case
      (fmt.with_display
        (fmt.affixed_quoted (fmt.group xs s.delimiter s.formatting) s.affixes s.quotes)
        s.display true)
      s.text_case)

mutual

/-- `IR::flatten` (ir.rs, lines 261–271) together with `IrSeq::flatten_seq`
(lines 477–518): `Rendered(None)` is `None`; `Rendered(Some(x))` is `x.inner()`;
`YearSuffix`, `ConditionalDisamb`, `NameCounter` and `Name` flatten their children;
a `Seq` first applies the `overall_group_vars`/`should_render_tree` check
(`if !overall.map_or(true, should_render_tree) return None`) and then flattens its
children with its own delimiter, affixes, quotes, display and text case. -/
def flatten (fmt : MarkupFmt) : IrTree → Option String
  | IrTree.node p _ children =>
    match p with
    | IrPayload.rendered none => none
    | IrPayload.rendered (some x) => some x.inner
    | IrPayload.name => group_children_fmt fmt (flatten_filter fmt children)
    | IrPayload.conditionalDisamb _ _ => group_children_fmt fmt (flatten_filter fmt children)
    | IrPayload.yearSuffix _ _ _ => group_children_fmt fmt (flatten_filter fmt children)
    | IrPayload.nameCounter _ => group_children_fmt fmt (flatten_filter fmt children)
    | IrPayload.seq s =>
      if ((IrSeq.overall_group_vars s.dropped_gv children).map GroupVars.should_render_tree).getD true = false then
        none
      else
        seq_finish fmt s (flatten_filter fmt children)
termination_by t => sizeOf t

/-- The `filter_map(flatten)` over a node's children shared by `flatten_children`
and `flatten_seq` (ir.rs). -/
def flatten_filter (fmt : MarkupFmt) : List IrTree → List String
  | [] => []
  | t :: ts =>
    match flatten fmt t with
    | some b => b :: flatten_filter fmt ts
    | none => flatten_filter fmt ts
termination_by l => sizeOf l

end

/-! ## Concrete instances used by witnesses and counterexamples -/

/-- A name element with the initialize-with delimiter set but `initialize = false`. -/
def c5_el : NameEl :=
  { form := some NameForm.Short, initialize_given := some false, initialize_with := some "." }

/-- A name element with the initialize-with delimiter set and `initialize = true`. -/
def c5_el_w : NameEl :=
  { form := some NameForm.Short, initialize_given := some true, initialize_with := some "." }

/-- Two interned DisambName ids. -/
def c3_dns : List Nat := [0, 1]

/-- A non-primary name datum; under `PrimaryName` its iterator yields nothing. -/
def c3_data : DisambNameData := { ref_id := "r", primary := false }

/-- A lookup table mapping both ids to the same datum, so every edge is ambiguous. -/
def c3_lookup : Nat → DisambNameData := fun _ => c3_data

/-- A rendering that collapses everything to one edge. -/
def c3_render : DisambNameData → Edge := fun _ => 7

/-- A loop state with the guard true: one counted token, none yet accounted. -/
def c2_state : RefIrLoopState :=
  { max_counted_tokens := 0, counted_tokens := 1, bump_name_count := 0 }

/-- A seq whose dropped group-vars are `Missing`, so its fold is `Missing`. -/
def c4_seq : IrSeq := { dropped_gv := some GroupVars.Missing }

/-- A plain formatter instance: joins with the delimiter and ignores decoration. -/
def plain_fmt : MarkupFmt :=
  { group := fun xs delim _ => String.intercalate delim xs
    affixed_quoted := fun b _ _ => b
    with_display := fun b _ _ => b
    apply_text_case := fun b _ => b }

/-! ## Iterator lemmas -/

/-- A yielding call to `next` strictly decreases the state rank. -/
theorem next_some_rank : ∀ (it : SingleNameDisambIter) (p : NameDisambPass)
    (it' : SingleNameDisambIter), it.next = (some p, it') →
    it'.state.rank < it.state.rank := by
  decide

/-- Regardless of fuel, the iterator yields at most `rank` many passes. -/
theorem yieldsFuel_length_le : ∀ (fuel : Nat) (it : SingleNameDisambIter),
    (SingleNameDisambIter.yieldsFuel fuel it).length ≤ it.state.rank := by
  intro fuel
  induction fuel with
  | zero => intro it; simp [SingleNameDisambIter.yieldsFuel]
  | succ fuel ih =>
    intro it
    match h : it.next with
    | (some p, it') =>
      have hr := next_some_rank it p it' h
      have hl := ih it'
      simp [SingleNameDisambIter.yieldsFuel, h]
      omega
    | (none, it') =>
      simp [SingleNameDisambIter.yieldsFuel, h]

/-- Every state in the visited-state trace has rank at most the starting rank. -/
theorem stateTraceFuel_rank_le : ∀ (fuel : Nat) (it : SingleNameDisambIter)
    (b : NameDisambState), b ∈ SingleNameDisambIter.stateTraceFuel fuel it →
    b.rank ≤ it.state.rank := by
  intro fuel
  induction fuel with
  | zero =>
    intro it b hb
    simp [SingleNameDisambIter.stateTraceFuel] at hb
    simp [hb]
  | succ fuel ih =>
    intro it b hb
    match h : it.next with
    | (some p, it') =>
      simp [SingleNameDisambIter.stateTraceFuel, h] at hb
      rcases hb with hb | hb
      · simp [hb]
      · have := ih it' b hb
        have := next_some_rank it p it' h
        omega
    | (none, it') =>
      simp [SingleNameDisambIter.stateTraceFuel, h] at hb
      simp [hb]

/-- The visited-state trace is strictly decreasing in rank. -/
theorem stateTraceFuel_pairwise : ∀ (fuel : Nat) (it : SingleNameDisambIter),
    (SingleNameDisambIter.stateTraceFuel fuel it).Pairwise
      (fun a b => b.rank < a.rank) := by
  intro fuel
  induction fuel with
  | zero => intro it; simp [SingleNameDisambIter.stateTraceFuel]
  | succ fuel ih =>
    intro it
    match h : it.next with
    | (some p, it') =>
      simp only [SingleNameDisambIter.stateTraceFuel, h]
      refine List.Pairwise.cons ?_ (ih it')
      intro b hb
      have h1 := stateTraceFuel_rank_le fuel it' b hb
      have h2 := next_some_rank it p it' h
      omega
    | (none, it') =>
      simp [SingleNameDisambIter.stateTraceFuel, h]

/-- C9: for every (method, NameElement) pair — and in fact for every polling budget —
the `SingleNameDisambIter` yields at most 2 items before returning `None`, and the
sequence of internal states it visits across calls to `next` never repeats a state. -/
theorem single_name_disamb_iter_finite_no_revisit
    (method : SingleNameDisambMethod) (el : NameEl) (fuel : Nat) :
    (SingleNameDisambIter.yieldsFuel fuel (SingleNameDisambIter.new method el)).length ≤ 2 ∧
    (SingleNameDisambIter.stateTraceFuel fuel (SingleNameDisambIter.new method el)).Nodup := by
  constructor
  · have h := yieldsFuel_length_le fuel (SingleNameDisambIter.new method el)
    have hr : (SingleNameDisambIter.new method el).state.rank = 2 := rfl
    omega
  · refine (stateTraceFuel_pairwise fuel _).imp ?_
    intro a b hlt heq
    rw [heq] at hlt
    exact lt_irrefl _ hlt

/-- C5 counterexample: with the initialize-with delimiter set, form `Short`, but
`initialize = Some(false)`, the `AddInitialsThenGivenName` iterator yields only
`[WithFormLong]`, not `[WithFormLong, WithInitializeFalse]`: the constructor's flag
also requires `initialize == Some(true)`. -/
theorem single_name_disamb_iter_requires_initialize_true :
    c5_el.initialize_with.isSome = true ∧ c5_el.form = some NameForm.Short ∧
    (SingleNameDisambIter.new SingleNameDisambMethod.AddInitialsThenGivenName c5_el).yields =
      [NameDisambPass.WithFormLong] ∧
    (SingleNameDisambIter.new SingleNameDisambMethod.AddInitialsThenGivenName c5_el).yields ≠
      [NameDisambPass.WithFormLong, NameDisambPass.WithInitializeFalse] := by
  refine ⟨rfl, rfl, rfl, ?_⟩
  decide

/-- C5 (amended): for every NameElement whose initialize-with delimiter is set, whose
`initialize` is `Some(true)`, and whose form is `Short`, the iterator with method
`AddInitialsThenGivenName` yields exactly `[WithFormLong, WithInitializeFalse]`. -/
theorem single_name_disamb_iter_add_initials_then_gn (el : NameEl)
    (h1 : el.initialize_with.isSome = true) (h2 : el.initialize_given = some true)
    (h3 : el.form = some NameForm.Short) :
    (SingleNameDisambIter.new SingleNameDisambMethod.AddInitialsThenGivenName el).yields =
      [NameDisambPass.WithFormLong, NameDisambPass.WithInitializeFalse] := by
  have hnew : SingleNameDisambIter.new SingleNameDisambMethod.AddInitialsThenGivenName el =
      { method := SingleNameDisambMethod.AddInitialsThenGivenName
        initialize_with := true
        name_form := NameForm.Short
        state := NameDisambState.Original } := by
    simp [SingleNameDisambIter.new, h1, h2, h3]
  rw [hnew]
  rfl

/-- Witness for C5's amended theorem at a concrete name element. -/
theorem single_name_disamb_iter_add_initials_then_gn_witness :
    c5_el_w.initialize_with.isSome = true ∧
    (SingleNameDisambIter.new SingleNameDisambMethod.AddInitialsThenGivenName c5_el_w).yields =
      [NameDisambPass.WithFormLong, NameDisambPass.WithInitializeFalse] :=
  ⟨rfl, single_name_disamb_iter_add_initials_then_gn c5_el_w rfl rfl rfl⟩

/-! ## The variant matcher (C6) -/

/-- Applying any take-prefix of a pass list and rendering lands in the edge list the
matcher records. -/
theorem matcher_expansions_take_mem (render : DisambNameData → Edge) :
    ∀ (ps : List NameDisambPass) (n : Nat) (d : DisambNameData),
      render ((ps.take n).foldl DisambNameData.apply_pass d) ∈
        render d :: matcher_expansions render d ps := by
  intro ps
  induction ps with
  | nil => intro n d; simp
  | cons p ps ih =>
    intro n d
    cases n with
    | zero => simp
    | succ n =>
      simp only [List.take_succ_cons, List.foldl_cons, matcher_expansions]
      exact List.mem_cons_of_mem _ (ih n (d.apply_pass p))

/-- C6: for every rendering, rule and name datum `d0`, and every prefix of the pass
sequence the iterator yields, the variant matcher built by `from_disamb_name` accepts
the edge obtained by applying that prefix to `d0` and rendering; the empty prefix
gives the un-expanded edge. -/
theorem name_variant_matcher_accepts_prefix_expansions
    (render : DisambNameData → Edge) (rule : GivenNameDisambiguationRule)
    (d0 : DisambNameData) (n : Nat) :
    (NameVariantMatcher.from_disamb_name render rule d0).accepts
      (render ((((d0.disamb_iter rule).yields).take n).foldl DisambNameData.apply_pass d0)) =
      true := by
  have h := matcher_expansions_take_mem render ((d0.disamb_iter rule).yields) n d0
  simpa [NameVariantMatcher.from_disamb_name, NameVariantMatcher.accepts] using h

/-! ## Global name disambiguation (C3, C7) -/

/-- If the loop's result still renders to an ambiguous edge, the loop ended by
iterator exhaustion and returned the original datum `d0`. -/
theorem gnd_loop_reset (amb : Edge → Bool) (render : DisambNameData → Edge)
    (d0 : DisambNameData) :
    ∀ (fuel : Nat) (it : SingleNameDisambIter) (d : DisambNameData),
      it.state.rank < fuel →
      amb (render (gnd_loop amb render d0 fuel it d)) = true →
      gnd_loop amb render d0 fuel it d = d0 := by
  intro fuel
  induction fuel with
  | zero =>
    intro it d hrank
    exact absurd hrank (Nat.not_lt_zero _)
  | succ fuel ih =>
    intro it d hrank hamb
    by_cases ha : amb (render d) = true
    · match hnext : it.next with
      | (some p, it') =>
        have hr := next_some_rank it p it' hnext
        have heq : gnd_loop amb render d0 (fuel + 1) it d =
            gnd_loop amb render d0 fuel it' (d.apply_pass p) := by
          simp [gnd_loop, ha, hnext]
        rw [heq] at hamb ⊢
        exact ih it' (d.apply_pass p) (by omega) hamb
      | (none, it') =>
        simp [gnd_loop, ha, hnext]
    · have heq : gnd_loop amb render d0 (fuel + 1) it d = d := by
        simp [gnd_loop, ha]
      rw [heq] at hamb
      exact absurd hamb ha

/-- If the initial edge is already unambiguous, the loop applies no pass. -/
theorem gnd_loop_not_ambiguous (amb : Edge → Bool) (render : DisambNameData → Edge)
    (d0 : DisambNameData) (fuel : Nat) (it : SingleNameDisambIter) (d : DisambNameData)
    (h : amb (render d) = false) :
    gnd_loop amb render d0 (fuel + 1) it d = d := by
  simp [gnd_loop, h]

/-- Ids not in the list are untouched by the insertion fold of
`disambiguated_person_names`. -/
theorem dpn_fold_not_mem (v : Nat → DisambNameData) :
    ∀ (dns : List Nat) (f : Nat → Option DisambNameData) (id : Nat), id ∉ dns →
      dns.foldl (fun results dn_id x => if x = dn_id then some (v dn_id) else results x)
        f id = f id := by
  intro dns
  induction dns with
  | nil => intro f id _; rfl
  | cons a l ih =>
    intro f id h
    simp only [List.mem_cons, not_or] at h
    simp only [List.foldl_cons]
    rw [ih _ id h.2]
    simp [h.1]

/-- Ids in the list are bound to their computed value by the insertion fold. -/
theorem dpn_fold_mem (v : Nat → DisambNameData) :
    ∀ (dns : List Nat) (f : Nat → Option DisambNameData) (id : Nat), id ∈ dns →
      dns.foldl (fun results dn_id x => if x = dn_id then some (v dn_id) else results x)
        f id = some (v id) := by
  intro dns
  induction dns with
  | nil => intro f id h; simp at h
  | cons a l ih =>
    intro f id h
    simp only [List.foldl_cons]
    by_cases hl : id ∈ l
    · exact ih _ id hl
    · have ha : id = a := by
        rcases List.mem_cons.mp h with h | h
        · exact h
        · exact absurd h hl
      rw [dpn_fold_not_mem v l _ id hl]
      simp [ha]

/-- C3: whenever the style path is active (rule not ByCite, the flag on), each id in
the list is bound in the result map; if its recorded value still renders to an
ambiguous edge (more than one matcher accepts it), the iterator was exhausted and the
map binds the id to its original looked-up data, and if the un-expanded edge is
already unambiguous the map also binds the id to its original data (no pass is
applied). -/
theorem disambiguated_person_names_reset_rule
    (dns : List Nat) (lookup : Nat → DisambNameData) (render : DisambNameData → Edge)
    (rule : GivenNameDisambiguationRule) (id : Nat)
    (hmem : id ∈ dns) (hrule : rule ≠ GivenNameDisambiguationRule.ByCite) :
    (is_ambiguous (global_matchers dns lookup render rule)
        (render (gnd_result (is_ambiguous (global_matchers dns lookup render rule))
          render rule (lookup id))) = true →
      disambiguated_person_names dns lookup render rule true id = some (lookup id)) ∧
    (is_ambiguous (global_matchers dns lookup render rule) (render (lookup id)) = false →
      disambiguated_person_names dns lookup render rule true id = some (lookup id)) := by
  have hdpn : disambiguated_person_names dns lookup render rule true id =
      some (gnd_result (is_ambiguous (global_matchers dns lookup render rule))
        render rule (lookup id)) := by
    unfold disambiguated_person_names
    rw [if_neg (by simp [hrule])]
    exact dpn_fold_mem _ dns _ id hmem
  have hrank : ((lookup id).disamb_iter rule).state.rank < 3 := by
    have : ((lookup id).disamb_iter rule).state = NameDisambState.Original := rfl
    rw [this]
    decide
  constructor
  · intro hamb
    rw [hdpn]
    have := gnd_loop_reset (is_ambiguous (global_matchers dns lookup render rule)) render
      (lookup id) 3 ((lookup id).disamb_iter rule) (lookup id) hrank hamb
    unfold gnd_result
    rw [this]
  · intro hne
    rw [hdpn]
    unfold gnd_result
    rw [gnd_loop_not_ambiguous _ _ _ 2 _ _ hne]

/-- Witness for C3 at a concrete instance where every edge is ambiguous and the
iterator is immediately exhausted. -/
theorem disambiguated_person_names_reset_rule_witness :
    is_ambiguous (global_matchers c3_dns c3_lookup c3_render GivenNameDisambiguationRule.PrimaryName)
        (c3_render (gnd_result
          (is_ambiguous (global_matchers c3_dns c3_lookup c3_render GivenNameDisambiguationRule.PrimaryName))
          c3_render GivenNameDisambiguationRule.PrimaryName (c3_lookup 0))) = true ∧
    disambiguated_person_names c3_dns c3_lookup c3_render
      GivenNameDisambiguationRule.PrimaryName true 0 = some (c3_lookup 0) :=
  ⟨by decide,
    (disambiguated_person_names_reset_rule c3_dns c3_lookup c3_render
      GivenNameDisambiguationRule.PrimaryName 0 (by decide) (by decide)).1 (by decide)⟩

/-- C7: if the style's disambiguate-add-givenname flag is off or the rule is ByCite,
`disambiguated_person_names` returns the empty map: no id is bound (and the matcher
preamble and expansion loop are behind the early return). -/
theorem disambiguated_person_names_noop_when_disabled
    (dns : List Nat) (lookup : Nat → DisambNameData) (render : DisambNameData → Edge)
    (rule : GivenNameDisambiguationRule) (dagn : Bool)
    (h : dagn = false ∨ rule = GivenNameDisambiguationRule.ByCite) (id : Nat) :
    disambiguated_person_names dns lookup render rule dagn id = none := by
  unfold disambiguated_person_names
  rw [if_pos h]

/-- Witness for C7 with the flag off. -/
theorem disambiguated_person_names_noop_when_disabled_witness :
    disambiguated_person_names c3_dns c3_lookup c3_render
      GivenNameDisambiguationRule.AllNames false 0 = none :=
  disambiguated_person_names_noop_when_disabled c3_dns c3_lookup c3_render
    GivenNameDisambiguationRule.AllNames false (Or.inl rfl) 0

/-! ## `IR::is_empty` (C1) and `IrSeq::flatten_seq` (C4) -/

/-- C1: evaluating `IR::is_empty` as written in ir.rs at the inputs that decide the
claim. A `Seq` with no children is reported non-empty, and a `Seq` with one rendered
child is reported empty: the source returns `children.next().is_some()` for
containers, the inverse of its own doc comment ("Rendered(None), empty YearSuffix or
empty seq") and of the claim. -/
theorem is_empty_children_inverted :
    IR.is_empty (IrTree.node (IrPayload.seq {}) GroupVars.Plain []) = false ∧
    IR.is_empty (IrTree.node (IrPayload.seq {}) GroupVars.Plain
      [IrTree.node (IrPayload.rendered (some (CiteEdgeData.Output "x")))
        GroupVars.Important []]) = true :=
  ⟨rfl, rfl⟩

/-- C4: a `Seq` node whose fold of `dropped_gv` with its children's group-vars under
`neighbour` is `Missing` flattens to `None`: `overall_group_vars` maps the `Missing`
fold through the `implicit_conditional` replication and the
`should_render_tree` check then suppresses the sequence. -/
theorem seq_missing_group_vars_flattens_none (fmt : MarkupFmt) (s : IrSeq)
    (gv : GroupVars) (children : List IrTree) (dropped : GroupVars)
    (h1 : s.dropped_gv = some dropped)
    (h2 : children.foldl (fun acc c => acc.neighbour c.gv) dropped = GroupVars.Missing) :
    flatten fmt (IrTree.node (IrPayload.seq s) gv children) = none := by
  have hov : IrSeq.overall_group_vars s.dropped_gv children = some GroupVars.Plain := by
    rw [h1]
    simp [IrSeq.overall_group_vars, h2]
  simp [flatten, hov, GroupVars.should_render_tree]

/-- Witness for C4: a seq whose dropped group-vars are `Missing` and that has no
children flattens to nothing. -/
theorem seq_missing_group_vars_flattens_none_witness :
    flatten plain_fmt (IrTree.node (IrPayload.seq c4_seq) GroupVars.Plain []) = none :=
  seq_missing_group_vars_flattens_none plain_fmt c4_seq GroupVars.Plain [] GroupVars.Missing
    rfl rfl

/-! ## The NFA-building loop (C2) -/

/-- C2 counterexample: the loop does not always reach its exit condition. With one
counted token and a build that never appends an edge (`one_run == start`), the
`continue` skips every counter update, so the state is a fixed point of the loop body
while the guard `counted_tokens > max_counted_tokens` stays true: no number of
iterations falsifies the guard. -/
theorem ref_ir_nfa_loop_diverges_on_empty_run :
    ¬ ∃ n, ¬ ref_ir_nfa_guard
      ((ref_ir_nfa_step (fun _ => 1) (fun _ => false))^[n] c2_state) := by
  rintro ⟨n, hn⟩
  apply hn
  have hfix : ref_ir_nfa_step (fun _ => 1) (fun _ => false) c2_state = c2_state := rfl
  rw [Function.iterate_fixed hfix n]
  exact Nat.zero_lt_one

/-- Strong-induction core for the amended C2: with productive runs and bounded token
counts the guard eventually fails. -/
theorem ref_ir_terminates_aux :
    ∀ (k : Nat) (ntb_len_at : Nat → Nat) (run_adds_edges : Nat → Bool) (B : Nat)
      (s : RefIrLoopState),
      (∀ b, run_adds_edges b = true) → (∀ b, ntb_len_at b ≤ B) →
      s.counted_tokens ≤ B → B + 1 - s.max_counted_tokens ≤ k →
      ∃ n, ¬ ref_ir_nfa_guard ((ref_ir_nfa_step ntb_len_at run_adds_edges)^[n] s) := by
  intro k
  induction k with
  | zero =>
    intro ntb_len_at run_adds_edges B s _ _ hsB hk
    refine ⟨0, ?_⟩
    simp only [Function.iterate_zero, id_eq, ref_ir_nfa_guard]
    omega
  | succ k ih =>
    intro ntb_len_at run_adds_edges B s hP hL hsB hk
    by_cases hg : ref_ir_nfa_guard s
    · have hguard : s.max_counted_tokens < s.counted_tokens := hg
      have hstep : ref_ir_nfa_step ntb_len_at run_adds_edges s =
          { max_counted_tokens := s.counted_tokens
            counted_tokens := ntb_len_at (s.bump_name_count + 1)
            bump_name_count := s.bump_name_count + 1 } := by
        simp [ref_ir_nfa_step, hP s.bump_name_count]
      obtain ⟨n, hn⟩ := ih ntb_len_at run_adds_edges B
        { max_counted_tokens := s.counted_tokens
          counted_tokens := ntb_len_at (s.bump_name_count + 1)
          bump_name_count := s.bump_name_count + 1 }
        hP hL (hL _) (by simp only []; omega)
      refine ⟨n + 1, ?_⟩
      rw [Function.iterate_succ_apply, hstep]
      exact hn
    · exact ⟨0, hg⟩

/-- C2 (amended): the NFA-building loop of `Names::ref_ir` terminates provided every
iteration run while the guard holds appends at least one edge (the frontier returned
by `graph_with_stack` differs from `start`) and the token counts are bounded; the
counterexample above shows the proviso is needed, since an edge-free iteration leaves
the counters untouched. -/
theorem ref_ir_nfa_loop_terminates_with_edges
    (ntb_len_at : Nat → Nat) (run_adds_edges : Nat → Bool) (B : Nat) (s : RefIrLoopState)
    (hP : ∀ b, run_adds_edges b = true) (hL : ∀ b, ntb_len_at b ≤ B)
    (hs : s.counted_tokens ≤ B) :
    ∃ n, ¬ ref_ir_nfa_guard ((ref_ir_nfa_step ntb_len_at run_adds_edges)^[n] s) :=
  ref_ir_terminates_aux (B + 1 - s.max_counted_tokens) ntb_len_at run_adds_edges B s
    hP hL hs le_rfl

/-- Witness for the amended C2 at concrete parameters. -/
theorem ref_ir_nfa_loop_terminates_with_edges_witness :
    ∃ n, ¬ ref_ir_nfa_guard
      ((ref_ir_nfa_step (fun _ => 0) (fun _ => true))^[n] (ref_ir_initial (fun _ => 0))) :=
  ref_ir_nfa_loop_terminates_with_edges (fun _ => 0) (fun _ => true) 0
    (ref_ir_initial (fun _ => 0)) (fun _ => rfl) (fun _ => le_rfl) le_rfl

/-! ## Range compression (C8, C10) -/

/-- A one-element run is a `Single`. -/
theorem runPiece_self (a : CnumIx) : runPiece a a = RangePiece.Single a := by
  simp [runPiece]

/-- The loop of `collapse_ranges` agrees with the spec's run compression: starting
from a work-in-progress run `[lo..hi]` and already-emitted pieces `acc`, folding the
remaining numbers and appending the final piece yields `acc` followed by the
compressed runs. -/
theorem collapse_loop_eq :
    ∀ (rest : List CnumIx) (lo hi : CnumIx) (acc : List RangePiece),
      (∀ x ∈ rest, 1 ≤ x.cnum ∧ x.cnum < 4294967296) →
      lo.cnum ≤ hi.cnum →
      (rest.foldl collapse_step (runPiece lo hi, acc)).2 ++
          [(rest.foldl collapse_step (runPiece lo hi, acc)).1] =
        acc ++ rangeCompressGo lo hi rest := by
  intro rest
  induction rest with
  | nil =>
    intro lo hi acc _ _
    simp [rangeCompressGo]
  | cons y ys ih =>
    intro lo hi acc hb hle
    have hy1 : 1 ≤ y.cnum := (hb y (List.mem_cons_self y ys)).1
    have hy2 : y.cnum < 4294967296 := (hb y (List.mem_cons_self y ys)).2
    have htail : ∀ x ∈ ys, 1 ≤ x.cnum ∧ x.cnum < 4294967296 :=
      fun x hx => hb x (List.mem_cons_of_mem _ hx)
    have hsub : u32_sub_one y.cnum = y.cnum - 1 := by
      unfold u32_sub_one
      omega
    by_cases hc : y.cnum = hi.cnum + 1
    · have hcond : hi.cnum = u32_sub_one y.cnum := by
        rw [hsub]
        omega
      have happ : RangePiece.attempt_append (runPiece lo hi) y =
          (RangePiece.Range lo y, none) := by
        by_cases hlh : lo = hi
        · subst hlh
          simp [runPiece, RangePiece.attempt_append, hcond]
        · simp [runPiece, hlh, RangePiece.attempt_append, hcond]
      have hne : lo ≠ y := by
        intro he
        have : lo.cnum = y.cnum := congrArg CnumIx.cnum he
        omega
      have hstep : collapse_step (runPiece lo hi, acc) y = (runPiece lo y, acc) := by
        simp only [collapse_step]
        rw [happ]
        simp [runPiece, hne]
      rw [List.foldl_cons, hstep, ih lo y acc htail (by omega)]
      simp [rangeCompressGo, hc]
    · have hcond : hi.cnum ≠ u32_sub_one y.cnum := by
        rw [hsub]
        omega
      have happ : RangePiece.attempt_append (runPiece lo hi) y =
          (RangePiece.Single y, some (runPiece lo hi)) := by
        by_cases hlh : lo = hi
        · subst hlh
          simp [runPiece, RangePiece.attempt_append, hcond]
        · simp [runPiece, hlh, RangePiece.attempt_append, hcond]
      have hstep : collapse_step (runPiece lo hi, acc) y =
          (runPiece y y, acc ++ [runPiece lo hi]) := by
        simp only [collapse_step]
        rw [happ]
        simp [runPiece]
      rw [List.foldl_cons, hstep, ih y y (acc ++ [runPiece lo hi]) htail le_rfl]
      simp [rangeCompressGo, hc]

/-- C8: `collapse_ranges` implements the spec's range-compression rule: on inputs
whose cnums fit u32 and are at least 1 it coincides with the reference compression
(runs of consecutive cnums become `Range(lo, hi)`, non-consecutive values break the
run, the empty list maps to the empty result); the spec's concrete examples evaluate
accordingly. -/
theorem collapse_ranges_range_compression :
    (∀ nums : List CnumIx, (∀ x ∈ nums, 1 ≤ x.cnum ∧ x.cnum < 4294967296) →
      collapse_ranges nums = rangeCompressSpec nums) ∧
    collapse_ranges [] = [] ∧
    collapse_ranges [⟨1, 0⟩, ⟨2, 1⟩, ⟨3, 2⟩] = [RangePiece.Range ⟨1, 0⟩ ⟨3, 2⟩] ∧
    collapse_ranges [⟨1, 0⟩, ⟨2, 1⟩, ⟨4, 2⟩] =
      [RangePiece.Range ⟨1, 0⟩ ⟨2, 1⟩, RangePiece.Single ⟨4, 2⟩] ∧
    collapse_ranges [⟨1, 0⟩, ⟨2, 1⟩, ⟨3, 2⟩, ⟨5, 3⟩, ⟨6, 4⟩, ⟨9, 5⟩] =
      [RangePiece.Range ⟨1, 0⟩ ⟨3, 2⟩, RangePiece.Range ⟨5, 3⟩ ⟨6, 4⟩,
        RangePiece.Single ⟨9, 5⟩] := by
  refine ⟨?_, rfl, by decide, by decide, by decide⟩
  intro nums hb
  cases nums with
  | nil => rfl
  | cons x xs =>
    have h := collapse_loop_eq xs x x []
      (fun y hy => hb y (List.mem_cons_of_mem _ hy)) le_rfl
    rw [runPiece_self] at h
    simpa [collapse_ranges, rangeCompressSpec] using h

/-- Every step of the checked fold succeeds when the appended cnum is at least 1. -/
theorem foldlM_checked_isSome :
    ∀ (rest : List CnumIx) (st : RangePiece × List RangePiece),
      (∀ x ∈ rest, 1 ≤ x.cnum) →
      (rest.foldlM collapse_step_checked st).isSome = true := by
  intro rest
  induction rest with
  | nil => intro st _; rfl
  | cons y ys ih =>
    intro st h
    have hy : 1 ≤ y.cnum := h y (List.mem_cons_self y ys)
    have hcs : checked_sub_one y.cnum = some (y.cnum - 1) := by
      unfold checked_sub_one
      rw [if_neg (by omega)]
    have hstep : (collapse_step_checked st y).isSome = true := by
      cases h1 : st.1 with
      | Single prv => simp [collapse_step_checked, attempt_append_checked, h1, hcs]
      | Range s e => simp [collapse_step_checked, attempt_append_checked, h1, hcs]
    obtain ⟨st', hst'⟩ := Option.isSome_iff_exists.mp hstep
    rw [List.foldlM_cons, hst']
    exact ih st' (fun x hx => h x (List.mem_cons_of_mem _ hx))

/-- C10: `collapse_ranges` evaluates the u32 subtraction `nxt.cnum - 1` for every
element after the first. Under the precondition that every such element has cnum ≥ 1
the subtraction never underflows — the checked-subtraction run of the function
succeeds on every input satisfying it — and the precondition is necessary: the input
`[{cnum 1}, {cnum 0}]` reaches `0 - 1` on u32 inside `attempt_append`. -/
theorem collapse_ranges_u32_sub_underflow :
    (∀ nums : List CnumIx, (∀ x ∈ nums.tail, 1 ≤ x.cnum) →
      (collapse_ranges_checked nums).isSome = true) ∧
    collapse_ranges_checked [⟨1, 0⟩, ⟨0, 1⟩] = none := by
  constructor
  · intro nums h
    cases nums with
    | nil => rfl
    | cons x xs =>
      have := foldlM_checked_isSome xs (RangePiece.Single x, []) h
      simpa [collapse_ranges_checked] using this
  · decide
